import Mathlib

set_option autoImplicit false
set_option linter.unnecessarySeqFocus false

/-!
Verification of the crypto-scrapper service (`src/main.py`) against its
specification. The Python module is shallowly embedded: pure fragments become
Lean functions, the mutable module-level state (`crypto_data_store`,
`request_times`) becomes explicit state passing, `datetime` values become
integers counted in seconds, and Python strings manipulated character-wise
become lists of code points.
-/

namespace CryptoScraper

/-- Configuration constant `CONFIG["MAX_REQUESTS_PER_MINUTE"]` from `main.py`. -/
def MAX_REQUESTS_PER_MINUTE : Nat := 60

/-- Configuration constant `CONFIG["API_KEY"]` from `main.py`. -/
def API_KEY : String := "kingvon"

/-- Python slice `a[i:]` for an arbitrary integer start index `i`: a negative
index counts from the end and out-of-range indices are clamped. -/
def pySliceFrom {α : Type} (a : List α) (i : Int) : List α :=
  let n : Int := a.length
  let start : Int := if i < 0 then max 0 (n + i) else min n i
  a.drop start.toNat

/-- The last `n` elements of a list (used to state slice properties). -/
def lastN {α : Type} (n : Nat) (l : List α) : List α :=
  l.drop (l.length - n)

/-! ## Bounded history store -/

/-- Embedding of `save_data`: the store list is extended with `data`; when the
resulting length exceeds 1000 the store is replaced by its slice `[-500:]`. -/
def save_data {α : Type} (store data : List α) : List α :=
  let s := store ++ data
  if s.length > 1000 then pySliceFrom s (-500) else s

/-- Embedding of `load_data`: returns a copy of the store, which in a pure
model is the store itself; the store is not modified. -/
def load_data {α : Type} (store : List α) : List α := store

/-- Embedding of the store mutation in `clear_stored_data`:
`crypto_data_store.clear()`. -/
def clear_data {α : Type} (_store : List α) : List α := []

/-- Embedding of the store mutation performed by the `/crypto/prices` handler
`get_crypto_prices`: it loads the current store, extends that copy with the
freshly fetched records `result`, and passes the combined list to `save_data`,
which itself extends the store. -/
def get_crypto_prices_store {α : Type} (store result : List α) : List α :=
  let existing_data := load_data store
  let existing_data' := existing_data ++ result
  save_data store existing_data'

/-- The three history-store operations reachable through the HTTP surface. -/
inductive StoreOp (α : Type) where
  | append (batch : List α)
  | load
  | clear

/-- Effect of one store operation on the store contents. -/
def applyOp {α : Type} (store : List α) : StoreOp α → List α
  | .append batch => save_data store batch
  | .load => load_data store
  | .clear => clear_data store

/-- Effect of a sequence of store operations, first operation first. -/
def runOps {α : Type} (store : List α) (ops : List (StoreOp α)) : List α :=
  ops.foldl applyOp store

/-- Embedding of the `/data/history` handler `get_stored_data`: loads the
store, applies `data = data[-limit:]` when `limit` is truthy (non-zero), and
returns the slice together with `total_records = len(data)`. -/
def get_stored_data {α : Type} (limit : Int) (store : List α) : List α × Nat :=
  let data := load_data store
  let data' := if limit ≠ 0 then pySliceFrom data (-limit) else data
  (data', data'.length)

/-! ## Sliding-window rate limiter and API-key gate -/

/-- Rate limiter state: the module-level dict `request_times` mapping each
client address to its list of retained request timestamps, in seconds. A
client absent from the dict maps to `[]`, matching the
`if client_ip not in request_times` initialisation. -/
structure RLState where
  request_times : String → List Int

/-- The initial, empty `request_times` table. -/
def RLState.empty : RLState := ⟨fun _ => []⟩

/-- The list comprehension in `rate_limit_check`: retain exactly the timestamps
`t` with `current_time - t < timedelta(minutes=1)`; older ones are evicted. -/
def pruneWindow (now : Int) (l : List Int) : List Int :=
  l.filter (fun t => now - t < 60)

/-- Embedding of `rate_limit_check`: prunes the client's window (storing the
pruned list back), rejects with HTTP 429 (modelled as `false`) when the pruned
list has at least `MAX_REQUESTS_PER_MINUTE` entries, and otherwise appends
`now` and admits (`true`). -/
def rate_limit_check (client : String) (now : Int) (st : RLState) : RLState × Bool :=
  let pruned := pruneWindow now (st.request_times client)
  if MAX_REQUESTS_PER_MINUTE ≤ pruned.length then
    (⟨fun c => if c = client then pruned else st.request_times c⟩, false)
  else
    (⟨fun c => if c = client then pruned ++ [now] else st.request_times c⟩, true)

/-- Outcome of the dependency `verify_api_key`, as the HTTP layer sees it. -/
inductive AuthResult where
  | rateLimited
  | unauthorized
  | ok
  deriving DecidableEq

/-- Embedding of `verify_api_key`: runs `rate_limit_check` first (its state
change happens regardless of the key), raising 429 when it rejects; an
admitted request then compares the `x_api_key` header (absent headers are
`none`) with the configured secret, raising 401 on mismatch. -/
def verify_api_key (client : String) (now : Int) (x_api_key : Option String)
    (st : RLState) : RLState × AuthResult :=
  let res := rate_limit_check client now st
  if res.2 = false then (res.1, .rateLimited)
  else if x_api_key ≠ some API_KEY then (res.1, .unauthorized)
  else (res.1, .ok)

/-- Runs a sequence of `rate_limit_check` calls for one client at the given
times, returning the final state and the list of admission decisions. -/
def runClient (client : String) (st : RLState) : List Int → RLState × List Bool
  | [] => (st, [])
  | t :: ts =>
    let r := rate_limit_check client t st
    let rest := runClient client r.1 ts
    (rest.1, r.2 :: rest.2)

/-! ## Python string model -/

/-- Python strings manipulated by the fetchers, modelled as lists of Unicode
code points (the code only treats ASCII specially). -/
abbrev PyStr : Type := List Nat

/-- Conversion of a Lean string literal into the `PyStr` model. -/
def pyStr (s : String) : PyStr := s.toList.map Char.toNat

/-- Python `str.upper` on one code point: ASCII lowercase letters are mapped to
uppercase, every other code point is kept. -/
def upChar (c : Nat) : Nat := if 97 ≤ c ∧ c ≤ 122 then c - 32 else c

/-- Python `str.upper`. -/
def upper (s : PyStr) : PyStr := s.map upChar

/-- Code points removed by Python `str.strip`: space, tab, newline, carriage
return, vertical tab, form feed. -/
def isWs (c : Nat) : Bool := c == 32 || c == 9 || c == 10 || c == 13 || c == 11 || c == 12

/-- Python `str.strip`: drop whitespace from both ends. -/
def strip (s : PyStr) : PyStr :=
  ((s.dropWhile isWs).reverse.dropWhile isWs).reverse

/-- Python `str.split(",")`: splits at every comma (code point 44), keeping
empty segments; the result is never the empty list. -/
def splitComma : PyStr → List PyStr
  | [] => [[]]
  | c :: rest =>
    if c = 44 then [] :: splitComma rest
    else
      match splitComma rest with
      | [] => [[c]]
      | seg :: segs => (c :: seg) :: segs

/-! ## Price fetcher -/

/-- Upstream coin entry as decoded from the market listing response: exactly
the fields `scrape_crypto_prices` reads. Numeric values are opaque integers. -/
structure Coin where
  symbol : PyStr
  name : PyStr
  current_price : Int
  market_cap : Option Int
  total_volume : Option Int
  price_change_percentage_24h : Option Int
  deriving DecidableEq

/-- PriceRecord: the `crypto_info` dict built for each retained coin. -/
structure PriceRecord where
  symbol : PyStr
  name : PyStr
  price : Int
  market_cap : Option Int
  volume_24h : Option Int
  change_24h : Option Int
  timestamp : PyStr
  deriving DecidableEq

/-- The `crypto_info` construction in the loop body of `scrape_crypto_prices`;
`now` is the fetch completion time `datetime.now().isoformat()`. -/
def mkCryptoInfo (now : PyStr) (coin : Coin) : PriceRecord :=
  { symbol := upper coin.symbol
    name := coin.name
    price := coin.current_price
    market_cap := coin.market_cap
    volume_24h := coin.total_volume
    change_24h := coin.price_change_percentage_24h
    timestamp := now }

/-- The filter decision in the loop of `scrape_crypto_prices`: a coin is
skipped exactly when `symbol_list` is truthy (a non-`None`, non-empty list)
and the coin's upper-cased ticker is not among the upper-cased then stripped
filter entries. -/
def coinKept (symbol_list : Option (List PyStr)) (coin : Coin) : Bool :=
  match symbol_list with
  | none => true
  | some [] => true
  | some (e :: es) =>
    decide (upper coin.symbol ∈ ((e :: es).map fun s => strip (upper s)))

/-- Embedding of the pure part of `scrape_crypto_prices`: `data` is the decoded
upstream response and `now` the fetch completion time. `symbols.split(",")` is
computed when the filter string is truthy (non-empty); coins failing the filter
are skipped and every retained coin becomes a `crypto_info` record. -/
def scrape_crypto_prices (symbols : Option PyStr) (data : List Coin) (now : PyStr) :
    List PriceRecord :=
  let symbol_list : Option (List PyStr) :=
    match symbols with
    | some s => if s ≠ [] then some (splitComma s) else none
    | none => none
  data.filterMap fun coin =>
    if coinKept symbol_list coin then some (mkCryptoInfo now coin) else none

/-! ## News fetcher -/

/-- RSS `<item>` element as the parser sees it: each field is present or
absent. `find(...)` returning `None` makes the subsequent `.text` attribute
access raise, which the `except: continue` swallows. -/
structure RSSItem where
  title : Option PyStr
  link : Option PyStr
  pubDate : Option PyStr
  description : Option PyStr
  deriving DecidableEq

/-- NewsItem: the dict appended to `news_data` for each parsed feed item. -/
structure NewsItem where
  title : PyStr
  url : PyStr
  source : PyStr
  published_at : PyStr
  summary : PyStr
  deriving DecidableEq

/-- Per-item body of the loop in `scrape_crypto_news`: `none` models the
`except: continue` taken when a required field (`title`, `link`, `pubDate`) is
missing; a missing `description` instead yields the placeholder text, and long
descriptions are truncated to 200 characters plus an ellipsis marker. -/
def parseNewsItem (item : RSSItem) : Option NewsItem :=
  match item.title, item.link, item.pubDate with
  | some t, some l, some p =>
    let desc_text : PyStr :=
      match item.description with
      | some d => strip d
      | none => pyStr "No description"
    some
      { title := strip t
        url := strip l
        source := pyStr "CoinDesk"
        published_at := strip p
        summary := if desc_text.length > 200 then desc_text.take 200 ++ pyStr "..." else desc_text }
  | _, _, _ => none

/-- Embedding of the pure part of `scrape_crypto_news`: the first `limit` feed
items are parsed one by one and items whose parse fails are skipped. -/
def scrape_crypto_news (limit : Nat) (items : List RSSItem) : List NewsItem :=
  (items.take limit).filterMap parseNewsItem

/-! ## Statistics -/

/-- Stored record as `get_data_statistics` reads it: the dict keys it accesses
are `symbol` (with an `UNKNOWN` default) and `timestamp`; both may be absent
from the free-form dict. -/
structure StoredRecord where
  symbol : Option String
  timestamp : Option String
  deriving DecidableEq

/-- The `record.get('symbol', 'UNKNOWN')` access. -/
def effSymbol (r : StoredRecord) : String := r.symbol.getD "UNKNOWN"

/-- One iteration of the counting loop: `symbols[symbol] += 1` when the key is
present, `symbols[symbol] = 1` otherwise, on an insertion-ordered dict
modelled as an association list. -/
def bumpCount (s : String) : List (String × Nat) → List (String × Nat)
  | [] => [(s, 1)]
  | (k, n) :: rest => if k = s then (k, n + 1) :: rest else (k, n) :: bumpCount s rest

/-- The `symbols` dict after the counting loop of `get_data_statistics`. -/
def buildCounts (data : List StoredRecord) : List (String × Nat) :=
  data.foldl (fun acc r => bumpCount (effSymbol r) acc) []

/-- The `stats` dict returned by `get_data_statistics`. -/
structure Stats where
  total_records : Nat
  unique_symbols : Nat
  symbol_counts : List (String × Nat)
  last_updated : Option String
  deriving DecidableEq

/-- Embedding of `get_data_statistics` on the loaded data: `none` models the
`{"message": "No data available"}` response for an empty store. -/
def get_data_statistics (data : List StoredRecord) : Option Stats :=
  if data.isEmpty then none
  else
    some
      { total_records := data.length
        unique_symbols := (buildCounts data).length
        symbol_counts := buildCounts data
        last_updated := data.getLast?.bind StoredRecord.timestamp }

/-- Dict lookup on the association-list model of the `symbols` dict. -/
def lookupCount (k : String) : List (String × Nat) → Option Nat
  | [] => none
  | (a, n) :: rest => if a = k then some n else lookupCount k rest

/-- The counting loop restricted to the sequence of effective symbols; used to
state properties of `buildCounts`. -/
def buildCountsS (syms : List String) : List (String × Nat) :=
  syms.foldl (fun acc s => bumpCount s acc) []

/-- Whether an RSS item carries all three required fields; exactly when the
`try` block of `scrape_crypto_news` completes. -/
def hasRequired (it : RSSItem) : Bool :=
  it.title.isSome && it.link.isSome && it.pubDate.isSome

/-- Total version of the per-item parse, defined on items that have all
required fields (absent fields default to the empty string). -/
def parseRequired (it : RSSItem) : NewsItem :=
  let desc_text : PyStr :=
    match it.description with
    | some d => strip d
    | none => pyStr "No description"
  { title := strip (it.title.getD [])
    url := strip (it.link.getD [])
    source := pyStr "CoinDesk"
    published_at := strip (it.pubDate.getD [])
    summary := if desc_text.length > 200 then desc_text.take 200 ++ pyStr "..." else desc_text }

/-! ## Basic lemmas about slices and the history store -/

lemma pySliceFrom_neg {α : Type} (a : List α) (i : Int) (hi : 0 < i) :
    pySliceFrom a (-i) = lastN i.toNat a := by
  simp only [pySliceFrom, lastN]
  rw [if_pos (by omega : -i < 0)]
  congr 1
  omega

lemma lastN_length {α : Type} (n : Nat) (l : List α) :
    (lastN n l).length = min n l.length := by
  unfold lastN
  rw [List.length_drop]
  omega

lemma save_data_eq {α : Type} (store data : List α) :
    save_data store data =
      if 1000 < (store ++ data).length then lastN 500 (store ++ data)
      else store ++ data := by
  simp only [save_data]
  split
  · rw [pySliceFrom_neg _ 500 (by norm_num)]
    rfl
  · rfl

lemma save_data_length_le {α : Type} (store data : List α) :
    (save_data store data).length ≤ 1000 := by
  rw [save_data_eq]
  split
  · rw [lastN_length]; omega
  · rename_i h; omega

lemma runOps_cons {α : Type} (s : List α) (op : StoreOp α) (ops : List (StoreOp α)) :
    runOps s (op :: ops) = runOps (applyOp s op) ops := rfl

lemma applyOp_length_le {α : Type} (s : List α) (op : StoreOp α)
    (hs : s.length ≤ 1000) : (applyOp s op).length ≤ 1000 := by
  cases op with
  | append batch => exact save_data_length_le s batch
  | load => exact hs
  | clear => simp [applyOp, clear_data]

/-! ## Claims about the history store -/

/-- C1 (code bug): the `/crypto/prices` handler is supposed to append exactly
the freshly fetched records `R` to the store `S`, leaving `S ++ R`; instead it
passes `load_data() ++ R` to `save_data`, which itself extends the store, so a
store `[r0]` receiving the fetch `[r1]` ends as `[r0, r0, r1]` — the
pre-existing record is appended a second time — rather than `[r0, r1]`. -/
theorem c1_price_fetch_duplicates_store :
    get_crypto_prices_store [(0 : Nat)] [1] = [0, 0, 1] ∧
    get_crypto_prices_store [(0 : Nat)] [1] ≠ [0, 1] := by
  constructor
  · rfl
  · decide

/-- C2: `save_data` leaves the store equal to `S ++ B` when the combined
length is at most 1000, and otherwise equal to exactly the last 500 elements
of the post-append list `S ++ B`. -/
theorem c2_save_data_spec {α : Type} (S B : List α) :
    ((S ++ B).length ≤ 1000 → save_data S B = S ++ B) ∧
    (1000 < (S ++ B).length → save_data S B = lastN 500 (S ++ B)) := by
  constructor
  · intro h
    rw [save_data_eq, if_neg (by omega)]
  · intro h
    rw [save_data_eq, if_pos h]

/-- Witness for C2 at concrete inputs: a small append is kept whole, and an
append reaching 1001 elements is cut to the last 500 of the combined list. -/
theorem c2_save_data_spec_witness :
    save_data [(0 : Nat)] [1] = [0] ++ [1] ∧
    save_data (List.replicate 1000 (0 : Nat)) [1] =
      lastN 500 (List.replicate 1000 (0 : Nat) ++ [1]) := by
  refine ⟨(c2_save_data_spec [0] [1]).1 (by decide), ?_⟩
  refine (c2_save_data_spec (List.replicate 1000 0) [1]).2 ?_
  rw [List.length_append, List.length_replicate]
  norm_num

/-- C3 (counterexample): the empty store has at most 500 records, yet
appending a batch of 1001 records does not yield `0 + 1001` records — the
store is truncated to 500 because the combined length exceeds 1000. -/
theorem c3_counterexample :
    ([] : List Nat).length ≤ 500 ∧
    (save_data ([] : List Nat) (List.replicate 1001 0)).length ≠
      ([] : List Nat).length + (List.replicate 1001 (0 : Nat)).length := by
  have hlen : (([] : List Nat) ++ List.replicate 1001 0).length = 1001 := by
    rw [List.nil_append, List.length_replicate]
  constructor
  · norm_num
  · rw [save_data_eq, if_pos (by rw [hlen]; norm_num), lastN_length, hlen]
    norm_num [List.length_replicate]

/-- C3 (amended): for every store of `N ≤ 500` records and batch of `M`
records whose combined length `N + M` stays within the 1000-record cap,
appending yields exactly `N + M` records with no truncation. -/
theorem c3_append_no_truncation {α : Type} (S B : List α)
    (_hS : S.length ≤ 500) (hSB : S.length + B.length ≤ 1000) :
    save_data S B = S ++ B ∧ (save_data S B).length = S.length + B.length := by
  have h : ¬ 1000 < (S ++ B).length := by
    rw [List.length_append]; omega
  rw [save_data_eq, if_neg h]
  exact ⟨rfl, List.length_append _ _⟩

/-- Witness for the amended C3 at a concrete input. -/
theorem c3_append_no_truncation_witness :
    save_data [(0 : Nat)] [1] = [0] ++ [1] ∧
    (save_data [(0 : Nat)] [1]).length = [(0 : Nat)].length + [(1 : Nat)].length :=
  c3_append_no_truncation [0] [1] (by decide) (by decide)

/-- C4: starting from the empty store, every sequence of the reachable store
operations (append via `save_data`, load via `load_data`, clear) leaves the
store with at most 1000 records. -/
theorem c4_store_length_invariant {α : Type} (ops : List (StoreOp α)) :
    (runOps ([] : List α) ops).length ≤ 1000 := by
  suffices h : ∀ s : List α, s.length ≤ 1000 → (runOps s ops).length ≤ 1000 by
    exact h [] (by simp)
  induction ops with
  | nil => intro s hs; exact hs
  | cons op rest ih =>
    intro s hs
    rw [runOps_cons]
    exact ih (applyOp s op) (applyOp_length_le s op hs)

/-- C10: for `/data/history` with integer query parameter `limit = L` over a
store of `N` records, a positive `L` returns the last `min(L, N)` records with
`total_records` equal to the length of the returned slice, and `L = 0` returns
the whole store unsliced because the slice is applied only when `L` is truthy. -/
theorem c10_history_limit_spec {α : Type} (L : Int) (store : List α) :
    (0 < L → get_stored_data L store =
      (lastN L.toNat store, (lastN L.toNat store).length)) ∧
    (0 < L → (lastN L.toNat store).length = min L.toNat store.length) ∧
    (L = 0 → get_stored_data L store = (store, store.length)) := by
  refine ⟨?_, ?_, ?_⟩
  · intro hL
    simp only [get_stored_data, load_data]
    rw [if_pos (by omega : L ≠ 0), pySliceFrom_neg store L hL]
  · intro _
    exact lastN_length _ _
  · intro hL
    subst hL
    simp only [get_stored_data, load_data]
    rw [if_neg (by omega : ¬ (0 : Int) ≠ 0)]

/-- Witness for C10: `limit = 2` over a three-record store returns the last
two records and reports `total_records = 2`; `limit = 0` returns all three. -/
theorem c10_history_limit_spec_witness :
    get_stored_data 2 [(1 : Nat), 2, 3] = ([2, 3], 2) ∧
    get_stored_data 0 [(1 : Nat), 2, 3] = ([1, 2, 3], 3) := by
  constructor
  · exact ((c10_history_limit_spec 2 [(1 : Nat), 2, 3]).1 (by norm_num)).trans (by decide)
  · exact ((c10_history_limit_spec 0 [(1 : Nat), 2, 3]).2.2 rfl).trans (by decide)

/-! ## String lemmas for the fetchers -/

lemma isWs_upChar (c : Nat) : isWs (upChar c) = isWs c := by
  unfold upChar
  split
  · rename_i h
    have h1 : isWs (c - 32) = false := by simp [isWs]; omega
    have h2 : isWs c = false := by simp [isWs]; omega
    rw [h1, h2]
  · rfl

lemma dropWhile_isWs_map_upChar (l : List Nat) :
    (l.map upChar).dropWhile isWs = (l.dropWhile isWs).map upChar := by
  induction l with
  | nil => rfl
  | cons a l ih =>
    simp only [List.map_cons, List.dropWhile_cons, isWs_upChar]
    split <;> simp_all

lemma upper_strip (s : PyStr) : upper (strip s) = strip (upper s) := by
  simp only [upper, strip]
  rw [dropWhile_isWs_map_upChar, ← List.map_reverse, dropWhile_isWs_map_upChar,
    ← List.map_reverse]

lemma filterMap_if {α β : Type} (p : α → Bool) (f : α → β) (l : List α) :
    (l.filterMap fun a => if p a then some (f a) else none) = (l.filter p).map f := by
  induction l with
  | nil => rfl
  | cons a l ih =>
    by_cases h : p a <;> simp [List.filterMap_cons, List.filter_cons, h, ih]

lemma splitComma_ne_nil (s : PyStr) : splitComma s ≠ [] := by
  cases s with
  | nil => simp [splitComma]
  | cons c rest =>
    unfold splitComma
    split
    · simp
    · cases h : splitComma rest <;> simp [h]

/-! ## Claims about the price fetcher -/

/-- C8: with a truthy (non-empty) comma-separated filter string, the price
fetcher returns exactly the records of coins whose ticker equals some filter
entry case-insensitively after surrounding whitespace is stripped from the
entry, in the original relative order, each retained coin mapped to its
`crypto_info` record with the ticker upper-cased; all other coins excluded. -/
theorem c8_price_filter_spec (fstr : PyStr) (hf : fstr ≠ []) (data : List Coin) (now : PyStr) :
    scrape_crypto_prices (some fstr) data now =
      (data.filter fun coin =>
        decide (∃ e ∈ splitComma fstr, upper (strip e) = upper coin.symbol)).map
        (mkCryptoInfo now) := by
  obtain ⟨e0, es, hsplit⟩ : ∃ e0 es, splitComma fstr = e0 :: es := by
    cases h : splitComma fstr with
    | nil => exact absurd h (splitComma_ne_nil fstr)
    | cons a l => exact ⟨a, l, rfl⟩
  have hsl : (if fstr ≠ [] then some (splitComma fstr) else none) = some (e0 :: es) := by
    rw [if_pos hf, hsplit]
  simp only [scrape_crypto_prices]
  simp only [hsl]
  rw [filterMap_if (coinKept (some (e0 :: es))) (mkCryptoInfo now) data]
  congr 1
  apply List.filter_congr
  intro coin _
  rw [hsplit]
  simp only [coinKept]
  rw [decide_eq_decide]
  simp only [List.mem_map, upper_strip]

/-- Witness for C8: filter `"btc, eth"` against an upstream list containing
BTC, ETH and SOL returns exactly the BTC and ETH records, tickers upper-cased,
despite the filter's lower case and the space before `eth`. -/
theorem c8_price_filter_spec_witness :
    scrape_crypto_prices (some (pyStr "btc, eth"))
        [⟨pyStr "btc", pyStr "Bitcoin", 100, none, none, none⟩,
         ⟨pyStr "eth", pyStr "Ethereum", 50, none, none, none⟩,
         ⟨pyStr "sol", pyStr "Solana", 20, none, none, none⟩] (pyStr "T") =
      [⟨pyStr "BTC", pyStr "Bitcoin", 100, none, none, none, pyStr "T"⟩,
       ⟨pyStr "ETH", pyStr "Ethereum", 50, none, none, none, pyStr "T"⟩] := by
  refine (c8_price_filter_spec (pyStr "btc, eth") (by decide) _ (pyStr "T")).trans ?_
  decide

/-! ## Claims about the news fetcher -/

lemma parseNewsItem_eq (it : RSSItem) :
    parseNewsItem it = if hasRequired it then some (parseRequired it) else none := by
  obtain ⟨t, l, p, d⟩ := it
  cases t <;> cases l <;> cases p <;>
    simp [parseNewsItem, parseRequired, hasRequired]

/-- C9: every feed item missing a required field (title, link or publication
date) is skipped silently, and the call returns exactly the items with all
required fields, in their original relative order (so a per-item failure never
fails the whole call, and the result may be empty); an item missing only its
description is not skipped and gets the placeholder summary instead. -/
theorem c9_news_skip_spec (items : List RSSItem) (limit : Nat) :
    scrape_crypto_news limit items
      = ((items.take limit).filter hasRequired).map parseRequired ∧
    (∀ it, hasRequired it = false → parseNewsItem it = none) ∧
    (∀ it, hasRequired it = true → it.description = none →
      parseNewsItem it = some (parseRequired it) ∧
      (parseRequired it).summary = pyStr "No description") := by
  refine ⟨?_, ?_, ?_⟩
  · simp only [scrape_crypto_news]
    rw [funext parseNewsItem_eq, filterMap_if]
  · intro it h
    rw [parseNewsItem_eq, h]
    simp
  · intro it h hd
    constructor
    · rw [parseNewsItem_eq, h]
      simp
    · simp only [parseRequired, hd]
      decide

/-- Witness for C9: a feed of five items whose second lacks its title yields
exactly the other four items in order; an item missing a required field
parses to nothing, and an item missing only its description parses with the
placeholder summary. -/
theorem c9_news_skip_spec_witness :
    scrape_crypto_news 5
        [⟨some (pyStr "t1"), some (pyStr "l1"), some (pyStr "d1"), none⟩,
         ⟨none, some (pyStr "l2"), some (pyStr "d2"), none⟩,
         ⟨some (pyStr "t3"), some (pyStr "l3"), some (pyStr "d3"), none⟩,
         ⟨some (pyStr "t4"), some (pyStr "l4"), some (pyStr "d4"), none⟩,
         ⟨some (pyStr "t5"), some (pyStr "l5"), some (pyStr "d5"), none⟩] =
      [⟨pyStr "t1", pyStr "l1", pyStr "CoinDesk", pyStr "d1", pyStr "No description"⟩,
       ⟨pyStr "t3", pyStr "l3", pyStr "CoinDesk", pyStr "d3", pyStr "No description"⟩,
       ⟨pyStr "t4", pyStr "l4", pyStr "CoinDesk", pyStr "d4", pyStr "No description"⟩,
       ⟨pyStr "t5", pyStr "l5", pyStr "CoinDesk", pyStr "d5", pyStr "No description"⟩] ∧
    parseNewsItem ⟨none, some (pyStr "l2"), some (pyStr "d2"), none⟩ = none ∧
    parseNewsItem ⟨some (pyStr "t1"), some (pyStr "l1"), some (pyStr "d1"), none⟩ =
      some ⟨pyStr "t1", pyStr "l1", pyStr "CoinDesk", pyStr "d1", pyStr "No description"⟩ := by
  refine ⟨((c9_news_skip_spec _ 5).1).trans (by decide), ?_, ?_⟩
  · exact (c9_news_skip_spec [] 0).2.1 _ (by decide)
  · exact ((c9_news_skip_spec [] 0).2.2 _ (by decide) rfl).1.trans (by decide)

/-! ## Lemmas about the statistics dict -/

lemma lookupCount_bumpCount (s k : String) (l : List (String × Nat)) :
    lookupCount k (bumpCount s l) =
      if k = s then some ((lookupCount k l).getD 0 + 1) else lookupCount k l := by
  induction l with
  | nil =>
    by_cases h : k = s
    · subst h
      simp [bumpCount, lookupCount]
    · have h2 : ¬ s = k := fun hh => h hh.symm
      simp [bumpCount, lookupCount, h, h2]
  | cons p rest ih =>
    obtain ⟨a, n⟩ := p
    by_cases has : a = s
    · subst has
      by_cases hka : k = a
      · subst hka
        simp [bumpCount, lookupCount]
      · have hak : ¬ a = k := fun hh => hka hh.symm
        simp [bumpCount, lookupCount, hka, hak]
    · by_cases hka : k = a
      · subst hka
        simp [bumpCount, lookupCount, has]
      · have hak : ¬ a = k := fun hh => hka hh.symm
        simp [bumpCount, lookupCount, has, hak, ih]

lemma keys_bumpCount (s : String) (l : List (String × Nat)) :
    (bumpCount s l).map Prod.fst =
      if s ∈ l.map Prod.fst then l.map Prod.fst else l.map Prod.fst ++ [s] := by
  induction l with
  | nil => simp [bumpCount]
  | cons p rest ih =>
    obtain ⟨a, n⟩ := p
    by_cases has : a = s
    · subst has
      simp [bumpCount]
    · have hsa : ¬ s = a := fun hh => has hh.symm
      by_cases hs : s ∈ rest.map Prod.fst <;>
        simp [bumpCount, has, hsa, ih, hs]

lemma lookupCount_foldl (syms : List String) (acc : List (String × Nat)) (k : String) :
    lookupCount k (syms.foldl (fun a s => bumpCount s a) acc) =
      if syms.count k = 0 then lookupCount k acc
      else some ((lookupCount k acc).getD 0 + syms.count k) := by
  induction syms generalizing acc with
  | nil => simp
  | cons s syms ih =>
    rw [List.foldl_cons, ih (bumpCount s acc), lookupCount_bumpCount]
    by_cases hks : k = s
    · subst hks
      by_cases hc : syms.count k = 0 <;>
        simp [hc, List.count_cons] <;> omega
    · have hsk : ¬ s = k := fun hh => hks hh.symm
      by_cases hc : syms.count k = 0 <;>
        simp [hc, List.count_cons, hks, hsk]

lemma foldl_keys (syms : List String) (acc : List (String × Nat))
    (hnd : (acc.map Prod.fst).Nodup) :
    ((syms.foldl (fun a s => bumpCount s a) acc).map Prod.fst).Nodup ∧
    (∀ k, k ∈ (syms.foldl (fun a s => bumpCount s a) acc).map Prod.fst ↔
      k ∈ acc.map Prod.fst ∨ k ∈ syms) := by
  induction syms generalizing acc with
  | nil => exact ⟨hnd, fun k => by simp⟩
  | cons s syms ih =>
    have hnd' : ((bumpCount s acc).map Prod.fst).Nodup := by
      rw [keys_bumpCount]
      split
      · exact hnd
      · rename_i hmem
        simp [List.nodup_append, hnd, hmem]
    obtain ⟨h1, h2⟩ := ih (bumpCount s acc) hnd'
    rw [List.foldl_cons]
    refine ⟨h1, fun k => ?_⟩
    rw [h2 k, keys_bumpCount]
    by_cases hmem : s ∈ acc.map Prod.fst
    · rw [if_pos hmem]
      simp only [List.mem_cons]
      constructor
      · rintro (h | h)
        · exact Or.inl h
        · exact Or.inr (Or.inr h)
      · rintro (h | rfl | h)
        · exact Or.inl h
        · exact Or.inl hmem
        · exact Or.inr h
    · rw [if_neg hmem]
      constructor
      · intro h
        rcases h with h | h
        · rcases List.mem_append.mp h with h | h
          · exact Or.inl h
          · have hks : k = s := by simpa using h
            subst hks
            exact Or.inr (List.mem_cons_self k syms)
        · exact Or.inr (List.mem_cons_of_mem _ h)
      · intro h
        rcases h with h | h
        · exact Or.inl (List.mem_append.mpr (Or.inl h))
        · rcases List.mem_cons.mp h with rfl | h
          · exact Or.inl (List.mem_append.mpr (Or.inr (by simp)))
          · exact Or.inr h

lemma buildCounts_eq (data : List StoredRecord) :
    buildCounts data = buildCountsS (data.map effSymbol) := by
  simp only [buildCounts, buildCountsS, List.foldl_map]

lemma lookupCount_buildCountsS (syms : List String) (k : String) :
    lookupCount k (buildCountsS syms) =
      if syms.count k = 0 then none else some (syms.count k) := by
  have h := lookupCount_foldl syms [] k
  simpa [buildCountsS, lookupCount] using h

lemma length_buildCountsS (syms : List String) :
    (buildCountsS syms).length = syms.toFinset.card := by
  obtain ⟨hnd, hmem⟩ := foldl_keys syms [] (by simp)
  have hm : ∀ k, k ∈ (buildCountsS syms).map Prod.fst ↔ k ∈ syms := by
    intro k
    rw [buildCountsS, hmem k]
    simp
  calc (buildCountsS syms).length
      = ((buildCountsS syms).map Prod.fst).length := by simp
    _ = ((buildCountsS syms).map Prod.fst).toFinset.card :=
        (List.toFinset_card_of_nodup hnd).symm
    _ = syms.toFinset.card := by
        congr 1
        ext a
        simp only [List.mem_toFinset]
        exact hm a

/-- C7: the stats computation returns the no-data message (modelled `none`) on
an empty store and never a statistics object; on non-empty data it reports
`total_records` equal to the data length, `unique_symbols` equal to the number
of distinct effective symbols (a record without a symbol counted under the
literal `UNKNOWN`), `symbol_counts` mapping each distinct symbol to its
occurrence count, and `last_updated` equal to the timestamp of the last
record; in particular the BTC/ETH/BTC example yields totals 3, 2 and counts
BTC 2, ETH 1. -/
theorem c7_stats_spec (data : List StoredRecord) :
    (data = [] → get_data_statistics data = none) ∧
    (data ≠ [] →
      get_data_statistics data =
        some { total_records := data.length
               unique_symbols := ((data.map effSymbol).toFinset).card
               symbol_counts := buildCounts data
               last_updated := data.getLast?.bind StoredRecord.timestamp }) ∧
    (∀ k, lookupCount k (buildCounts data) =
      if (data.map effSymbol).count k = 0 then none
      else some ((data.map effSymbol).count k)) ∧
    get_data_statistics
        [⟨some "BTC", none⟩, ⟨some "ETH", none⟩, ⟨some "BTC", none⟩] =
      some { total_records := 3, unique_symbols := 2
             symbol_counts := [("BTC", 2), ("ETH", 1)], last_updated := none } := by
  refine ⟨?_, ?_, ?_, ?_⟩
  · intro h
    subst h
    rfl
  · intro h
    have hne : ¬ data.isEmpty = true := by
      simp [List.isEmpty_iff, h]
    have hlen : (buildCounts data).length = ((data.map effSymbol).toFinset).card := by
      rw [buildCounts_eq]
      exact length_buildCountsS _
    simp only [get_data_statistics]
    rw [if_neg hne, hlen]
  · intro k
    rw [buildCounts_eq]
    exact lookupCount_buildCountsS _ k
  · decide

/-- Witness for C7: the empty store yields the no-data message; a singleton
store yields the full statistics object. -/
theorem c7_stats_spec_witness :
    get_data_statistics ([] : List StoredRecord) = none ∧
    get_data_statistics [⟨some "X", some "t1"⟩] =
      some { total_records := 1, unique_symbols := 1
             symbol_counts := [("X", 1)], last_updated := some "t1" } := by
  constructor
  · exact (c7_stats_spec []).1 rfl
  · exact ((c7_stats_spec [⟨some "X", some "t1"⟩]).2.1 (by decide)).trans (by decide)

/-! ## Lemmas about the rate limiter -/

lemma pruneWindow_eq_self (now : Int) (l : List Int) (h : ∀ t ∈ l, now - t < 60) :
    pruneWindow now l = l := by
  rw [pruneWindow, List.filter_eq_self]
  intro t ht
  simpa using h t ht

lemma rate_limit_check_admits (client : String) (now : Int) (st : RLState)
    (h : (pruneWindow now (st.request_times client)).length < MAX_REQUESTS_PER_MINUTE) :
    rate_limit_check client now st =
      (⟨fun c => if c = client then pruneWindow now (st.request_times client) ++ [now]
                 else st.request_times c⟩, true) := by
  simp only [rate_limit_check]
  rw [if_neg (by omega)]

lemma rate_limit_check_reject (client : String) (now : Int) (st : RLState)
    (h : MAX_REQUESTS_PER_MINUTE ≤ (pruneWindow now (st.request_times client)).length) :
    rate_limit_check client now st =
      (⟨fun c => if c = client then pruneWindow now (st.request_times client)
                 else st.request_times c⟩, false) := by
  simp only [rate_limit_check]
  rw [if_pos h]

lemma runClient_cons (client : String) (st : RLState) (t : Int) (ts : List Int) :
    runClient client st (t :: ts) =
      ((runClient client (rate_limit_check client t st).1 ts).1,
        (rate_limit_check client t st).2 ::
          (runClient client (rate_limit_check client t st).1 ts).2) := rfl

lemma runClient_append (client : String) (st : RLState) (l1 l2 : List Int) :
    runClient client st (l1 ++ l2) =
      ((runClient client (runClient client st l1).1 l2).1,
       (runClient client st l1).2 ++ (runClient client (runClient client st l1).1 l2).2) := by
  induction l1 generalizing st with
  | nil => simp [runClient]
  | cons t l1 ih =>
    simp only [List.cons_append, runClient_cons, ih]

lemma runClient_admits (client : String) (ts : List Int) :
    ∀ (st : RLState) (acc : List Int),
      st.request_times client = acc →
      acc.length + ts.length ≤ 60 →
      (∀ t ∈ ts, ∀ a ∈ acc, t - a < 60) →
      ts.Pairwise (fun a b => b - a < 60) →
      (runClient client st ts).1.request_times client = acc ++ ts ∧
      (runClient client st ts).2 = List.replicate ts.length true := by
  induction ts with
  | nil =>
    intro st acc h1 _ _ _
    simpa [runClient] using h1
  | cons t ts ih =>
    intro st acc h1 hlen hwin hpw
    have hprune : pruneWindow t (st.request_times client) = acc := by
      rw [h1]
      exact pruneWindow_eq_self t acc (fun a ha => hwin t (List.mem_cons_self t ts) a ha)
    have hadm : (pruneWindow t (st.request_times client)).length < MAX_REQUESTS_PER_MINUTE := by
      rw [hprune]
      have hl2 : (t :: ts).length = ts.length + 1 := rfl
      simp only [MAX_REQUESTS_PER_MINUTE]
      omega
    rw [runClient_cons, rate_limit_check_admits client t st hadm]
    have h1' : (⟨fun c => if c = client then pruneWindow t (st.request_times client) ++ [t]
        else st.request_times c⟩ : RLState).request_times client = acc ++ [t] := by
      simp [hprune]
    have hwin' : ∀ x ∈ ts, ∀ a ∈ acc ++ [t], x - a < 60 := by
      intro x hx a ha
      rcases List.mem_append.mp ha with ha | ha
      · exact hwin x (List.mem_cons_of_mem t hx) a ha
      · have hat : a = t := by simpa using ha
        subst hat
        exact (List.pairwise_cons.mp hpw).1 x hx
    obtain ⟨ha, hb⟩ := ih _ (acc ++ [t]) h1'
      (by simp only [List.length_append, List.length_cons, List.length_nil] at *; omega)
      hwin' (List.pairwise_cons.mp hpw).2
    constructor
    · rw [ha, List.append_assoc]
      rfl
    · rw [hb]
      simp [List.replicate_succ]

/-- C5: `rate_limit_check` first evicts the client's stale retained timestamps
(in particular every timestamp older than 60 seconds is gone from the pruned
window); when the pruned window has reached the ceiling
(`MAX_REQUESTS_PER_MINUTE` = 60) it rejects without recording `now`, storing
back exactly the pruned list, so a rejected request consumes no budget; below
the ceiling it records `now` and admits; consequently a fresh client issuing
checks at nondecreasing times all within a single 60-second window has its
first 60 checks admitted and its 61st check rejected. -/
theorem c5_rate_limit_spec :
    MAX_REQUESTS_PER_MINUTE = 60 ∧
    (∀ (client : String) (now : Int) (st : RLState) (t : Int),
      t ∈ st.request_times client → 60 ≤ now - t →
        t ∉ pruneWindow now (st.request_times client)) ∧
    (∀ (client : String) (now : Int) (st : RLState),
      60 ≤ (pruneWindow now (st.request_times client)).length →
        rate_limit_check client now st =
          (⟨fun c => if c = client then pruneWindow now (st.request_times client)
                     else st.request_times c⟩, false)) ∧
    (∀ (client : String) (now : Int) (st : RLState),
      (pruneWindow now (st.request_times client)).length < 60 →
        rate_limit_check client now st =
          (⟨fun c => if c = client then pruneWindow now (st.request_times client) ++ [now]
                     else st.request_times c⟩, true)) ∧
    (∀ (client : String) (ts : List Int) (t61 : Int),
      ts.length = 60 →
      (ts ++ [t61]).Pairwise (fun a b => a ≤ b ∧ b - a < 60) →
      (runClient client RLState.empty (ts ++ [t61])).2 =
        List.replicate 60 true ++ [false]) := by
  refine ⟨rfl, ?_, ?_, ?_, ?_⟩
  · intro client now st t _ hold hmem
    rw [pruneWindow, List.mem_filter] at hmem
    have := hmem.2
    simp at this
    omega
  · intro client now st h
    exact rate_limit_check_reject client now st h
  · intro client now st h
    exact rate_limit_check_admits client now st h
  · intro client ts t61 hlen hpw
    have hpw1 : ts.Pairwise (fun a b => b - a < 60) :=
      ((List.pairwise_append.mp hpw).1).imp (fun h => h.2)
    have hwin0 : ∀ x ∈ ts, t61 - x < 60 := by
      intro x hx
      exact ((List.pairwise_append.mp hpw).2.2 x hx t61 (by simp)).2
    obtain ⟨hstate, houts⟩ := runClient_admits client ts RLState.empty [] rfl
      (by simp [hlen]) (by intro x _ a ha; exact absurd ha (List.not_mem_nil a)) hpw1
    have hstate' : (runClient client RLState.empty ts).1.request_times client = ts := by
      simpa using hstate
    have hprune :
        pruneWindow t61 ((runClient client RLState.empty ts).1.request_times client) = ts := by
      rw [hstate']
      exact pruneWindow_eq_self _ _ hwin0
    have hrej := rate_limit_check_reject client t61 (runClient client RLState.empty ts).1
      (by rw [hprune, hlen]; exact Nat.le_refl 60)
    have hlast : (runClient client (runClient client RLState.empty ts).1 [t61]).2 = [false] := by
      rw [runClient_cons, hrej]
      rfl
    rw [runClient_append, houts, hlast, hlen]

/-- Witness for C5: a 100-second-old timestamp is evicted; a client with 60
fresh timestamps is rejected and keeps exactly the pruned list; a fresh client
is admitted with its timestamp recorded; and 61 checks at time 0 from a fresh
client yield 60 admissions followed by one rejection. -/
theorem c5_rate_limit_spec_witness :
    ((-100 : Int) ∉ pruneWindow 0 ((⟨fun _ => [-100]⟩ : RLState).request_times "a")) ∧
    rate_limit_check "a" 0 ⟨fun _ => List.replicate 60 0⟩ =
      (⟨fun c => if c = "a"
          then pruneWindow 0 ((⟨fun _ => List.replicate 60 0⟩ : RLState).request_times "a")
          else (⟨fun _ => List.replicate 60 0⟩ : RLState).request_times c⟩, false) ∧
    rate_limit_check "a" 5 RLState.empty =
      (⟨fun c => if c = "a" then pruneWindow 5 (RLState.empty.request_times "a") ++ [5]
                 else RLState.empty.request_times c⟩, true) ∧
    (runClient "a" RLState.empty (List.replicate 60 0 ++ [0])).2 =
      List.replicate 60 true ++ [false] := by
  refine ⟨?_, ?_, ?_, ?_⟩
  · exact c5_rate_limit_spec.2.1 "a" 0 _ (-100) (by decide) (by decide)
  · exact c5_rate_limit_spec.2.2.1 "a" 0 _ (by decide)
  · exact c5_rate_limit_spec.2.2.2.1 "a" 5 _ (by decide)
  · exact c5_rate_limit_spec.2.2.2.2 "a" (List.replicate 60 0) 0 (by decide) (by decide)

/-! ## Claim about the API-key gate -/

lemma verify_api_key_fst (client : String) (now : Int) (key : Option String) (st : RLState) :
    (verify_api_key client now key st).1 = (rate_limit_check client now st).1 := by
  simp only [verify_api_key]
  split
  · rfl
  · split <;> rfl

/-- C6: `verify_api_key` runs the rate limiter before the key comparison: a
rate-limited request fails with 429 (`rateLimited`) whatever key is provided,
including a wrong or absent one; an admitted request with a mismatched key
fails with 401 (`unauthorized`); and every admitted check — also one that then
fails the key comparison — records the timestamp `now` against the client's
rate-limit window. -/
theorem c6_verify_api_key_spec (client : String) (now : Int) (st : RLState) :
    ((rate_limit_check client now st).2 = false →
      ∀ key : Option String,
        (verify_api_key client now key st).2 = AuthResult.rateLimited) ∧
    ((rate_limit_check client now st).2 = true →
      ∀ key : Option String, key ≠ some API_KEY →
        (verify_api_key client now key st).2 = AuthResult.unauthorized) ∧
    ((rate_limit_check client now st).2 = true →
      ∀ key : Option String,
        (verify_api_key client now key st).1.request_times client =
          pruneWindow now (st.request_times client) ++ [now]) := by
  refine ⟨?_, ?_, ?_⟩
  · intro h key
    simp [verify_api_key, h]
  · intro h key hkey
    simp [verify_api_key, h, hkey]
  · intro h key
    rw [verify_api_key_fst]
    by_cases hlen : (pruneWindow now (st.request_times client)).length < MAX_REQUESTS_PER_MINUTE
    · rw [rate_limit_check_admits client now st hlen]
      simp
    · rw [rate_limit_check_reject client now st (le_of_not_lt hlen)] at h
      exact absurd h (by simp)

/-- Witness for C6: a client at the ceiling gets `rateLimited` even with no
key; a fresh client with the wrong key gets `unauthorized`, and that admitted
check still records its timestamp. -/
theorem c6_verify_api_key_spec_witness :
    (verify_api_key "a" 0 none ⟨fun _ => List.replicate 60 0⟩).2 = AuthResult.rateLimited ∧
    (verify_api_key "a" 0 (some "wrong") RLState.empty).2 = AuthResult.unauthorized ∧
    (verify_api_key "a" 0 (some "wrong") RLState.empty).1.request_times "a" =
      pruneWindow 0 (RLState.empty.request_times "a") ++ [0] := by
  refine ⟨?_, ?_, ?_⟩
  · exact (c6_verify_api_key_spec "a" 0 _).1 (by decide) none
  · exact (c6_verify_api_key_spec "a" 0 _).2.1 (by decide) (some "wrong") (by decide)
  · exact (c6_verify_api_key_spec "a" 0 _).2.2 (by decide) (some "wrong")

end CryptoScraper
